import Mathlib

/-!
Shallow embedding of the AWS-support bridge scripts
(`scripts/aws-support-client.js`, `scripts/create-support-case.js`,
`scripts/reply-to-case.js`, `scripts/monitor-cases.js`, and the retrying
AI callers) together with proofs about the embedded operations.

JavaScript strings are modelled by Lean `String` (a list of characters);
`split`, `trim`, object-key assignment and `Array.join` are re-implemented
below with the semantics of the corresponding JS built-ins.
-/

namespace Spec2Proof

/-- Whitespace class of the JS `\s` / `trim` family restricted to the
character-set the scripts exercise (space, tab, newline, carriage return,
vertical tab, form feed, no-break space, BOM).  JS additionally trims the
rare Unicode space separators, which never occur in these inputs. -/
def isJsWhitespace (c : Char) : Bool :=
  c = ' ' || c = '\t' || c = '\n' || c = '\r' ||
  c = Char.ofNat 0x0b || c = Char.ofNat 0x0c ||
  c = Char.ofNat 0xa0 || c = Char.ofNat 0xfeff

/-- Leading-whitespace removal on character lists. -/
def trimLeftChars (cs : List Char) : List Char := cs.dropWhile isJsWhitespace

/-- Trailing-whitespace removal on character lists. -/
def trimRightChars (cs : List Char) : List Char :=
  (cs.reverse.dropWhile isJsWhitespace).reverse

/-- Model of `String.prototype.trim`. -/
def jsTrim (s : String) : String := ⟨trimRightChars (trimLeftChars s.data)⟩

/-- Model of `String.prototype.split(sep)` for a one-character separator,
on character lists.  `split` of the empty string yields `[""]`. -/
def splitOnChar (sep : Char) : List Char → List (List Char)
  | [] => [[]]
  | c :: rest =>
    let r := splitOnChar sep rest
    if c = sep then [] :: r
    else
      match r with
      | h :: t => (c :: h) :: t
      | [] => [[c]]

/-- Model of `content.split('\n')`. -/
def jsSplitLines (s : String) : List String :=
  (splitOnChar '\n' s.data).map fun cs => ⟨cs⟩

/-- Computable model of `String.prototype.startsWith` (Lean's own
`String.startsWith` is position-based and does not reduce in the kernel). -/
def strStartsWith (s pre : String) : Bool := pre.data.isPrefixOf s.data

/-- Computable model of `String.prototype.endsWith`. -/
def strEndsWith (s suf : String) : Bool := suf.data.isSuffixOf s.data

/-- Membership of a character in a string, the model of
`String.prototype.includes` for a one-character needle. -/
def strContainsChar (t : String) (c : Char) : Bool := t.data.contains c

/-- Model of `trimmed.split('=')`. -/
def splitOnEq (t : String) : List String :=
  (splitOnChar '=' t.data).map fun cs => ⟨cs⟩

/-- Lookup in a JS object built by successive `obj[key] = value`
assignments (the pairs are listed in assignment order, so the last
assignment to a key wins). -/
def jsObjGet (pairs : List (String × String)) (k : String) : Option String :=
  pairs.foldl (fun acc p => if p.1 = k then some p.2 else acc) none

/-- Truthiness of `obj[key]` for a string-valued JS object field:
`undefined` and the empty string are falsy. -/
def jsTruthy : Option String → Bool
  | some v => v != ""
  | none => false

/-- Model of `Array.prototype.join(', ')`. -/
def joinComma : List String → String
  | [] => ""
  | [s] => s
  | s :: rest => s ++ ", " ++ joinComma rest

example : jsTrim "  ab c \n" = "ab c" := by decide
example : jsSplitLines "a\nb" = ["a", "b"] := by decide
example : jsObjGet [("k", "1"), ("k", "2")] "k" = some "2" := by decide
example : joinComma ["a", "b", "c"] = "a, b, c" := by decide
example : "Profile 'p' not found" ≠ "" := by decide

/-!  CredentialResolver: `scripts/aws-support-client.js`, lines 28-104. -/

/-- Credentials returned by `parseCredentials` (`aws-support-client.js`
lines 82-86): the requested profile's `aws_access_key_id`,
`aws_secret_access_key` and optional `aws_session_token`. -/
structure Credentials where
  accessKeyId : String
  secretAccessKey : String
  sessionToken : Option String
  deriving DecidableEq, Repr

/-- Test of `aws-support-client.js` line 64: a trimmed line is a profile
header when it starts with `[` and ends with `]`. -/
def isProfileHeader (t : String) : Bool :=
  strStartsWith t "[" && strEndsWith t "]"

/-- Model of `trimmed.slice(1, -1)` (`aws-support-client.js` line 65): the
text between the surrounding brackets. -/
def headerInner (t : String) : String := ⟨(t.data.drop 1).dropLast⟩

/-- Key of a `key=value` line: `trimmed.split('=')[0]` trimmed
(`aws-support-client.js` line 71). -/
def kvKey (t : String) : String := jsTrim ((splitOnEq t).headD "")

/-- Value of a `key=value` line: `trimmed.split('=')[1]` trimmed; text after
a second `=` is discarded by the destructuring (line 71). -/
def kvValue (t : String) : String := jsTrim (((splitOnEq t).drop 1).headD "")

/-- One iteration of the `for (const line of lines)` loop of
`parseCredentials` (`aws-support-client.js` lines 60-76).  The state is the
current profile (`null` before any header) and the `credentials` object,
kept as the list of `credentials[key] = value` assignments made so far.
A key line is consumed only when `currentProfile` is truthy (a `[]` header
leaves it falsy) and the line contains `=`; the assignment happens only
when the current profile is the requested one. -/
def credStep (profile : String) (st : Option String × List (String × String))
    (line : String) : Option String × List (String × String) :=
  let trimmed := jsTrim line
  if isProfileHeader trimmed then
    (some (headerInner trimmed), st.2)
  else
    match st.1 with
    | some cp =>
      if cp != "" && strContainsChar trimmed '=' then
        if cp = profile then (st.1, st.2 ++ [(kvKey trimmed, kvValue trimmed)])
        else st
      else st
    | none => st

/-- Model of `parseCredentials(content, profile)` (`aws-support-client.js`
lines 55-87): run the line loop, then fail with `null` when the collected
object lacks a truthy `aws_access_key_id` or `aws_secret_access_key`,
otherwise return the three fields. -/
def parseCredentials (content profile : String) : Option Credentials :=
  let pairs := ((jsSplitLines content).foldl (credStep profile) (none, [])).2
  if jsTruthy (jsObjGet pairs "aws_access_key_id") &&
      jsTruthy (jsObjGet pairs "aws_secret_access_key") then
    some ⟨(jsObjGet pairs "aws_access_key_id").getD "",
          (jsObjGet pairs "aws_secret_access_key").getD "",
          jsObjGet pairs "aws_session_token"⟩
  else none

/-- Model of `getAvailableProfiles(content)` (`aws-support-client.js` lines
92-104): every bracketed header's inner text, in order. -/
def getAvailableProfiles (content : String) : List String :=
  (jsSplitLines content).filterMap fun line =>
    let t := jsTrim line
    if isProfileHeader t then some (headerInner t) else none

/-- Error message of `loadCredentials` when `parseCredentials` returns
`null` (`aws-support-client.js` lines 42-45). -/
def profileNotFoundMsg (path content profile : String) : String :=
  "Profile '" ++ profile ++ "' not found in " ++ path ++ "\n" ++
  "Available profiles: " ++ joinComma (getAvailableProfiles content)

/-- Model of `loadCredentials` (`aws-support-client.js` lines 28-50) after
the credentials file has been read: the file-system reads are external, so
the file's text and path are parameters; a missing profile raises the
error that lists every available profile. -/
def loadCredentialsFromContent (path content profile : String) :
    Except String Credentials :=
  match parseCredentials content profile with
  | some c => .ok c
  | none => .error (profileNotFoundMsg path content profile)

/-- Recollection of the key lines that belong to the requested profile,
written as direct recursion over the lines with the current profile as an
argument; used to state that `parseCredentials` reads only the requested
profile's lines. -/
def profilePairs (profile : String) : Option String → List String → List (String × String)
  | _, [] => []
  | cp, line :: rest =>
    let trimmed := jsTrim line
    if isProfileHeader trimmed then
      profilePairs profile (some (headerInner trimmed)) rest
    else
      match cp with
      | some c =>
        if c != "" && strContainsChar trimmed '=' then
          if c = profile then
            (kvKey trimmed, kvValue trimmed) :: profilePairs profile cp rest
          else profilePairs profile cp rest
        else profilePairs profile cp rest
      | none => profilePairs profile cp rest

/-- Credentials built from a collected pair list, the tail of
`parseCredentials` (`aws-support-client.js` lines 78-86). -/
def credsOfPairs (pairs : List (String × String)) : Option Credentials :=
  if jsTruthy (jsObjGet pairs "aws_access_key_id") &&
      jsTruthy (jsObjGet pairs "aws_secret_access_key") then
    some ⟨(jsObjGet pairs "aws_access_key_id").getD "",
          (jsObjGet pairs "aws_secret_access_key").getD "",
          jsObjGet pairs "aws_session_token"⟩
  else none

example :
    parseCredentials "[default]\naws_access_key_id = A\naws_secret_access_key = S\n" "default"
      = some ⟨"A", "S", none⟩ := by decide

example :
    parseCredentials "[p]\naws_access_key_id=A\naws_secret_access_key=S\naws_session_token=T" "p"
      = some ⟨"A", "S", some "T"⟩ := by decide

example : parseCredentials "[q]\naws_access_key_id=A\naws_secret_access_key=S" "p" = none := by
  decide

/-!  ReplyExtractor: `scripts/reply-to-case.js`, lines 86-112. -/

/-- Characters of the reply command token `/reply`. -/
def replyToken : List Char := "/reply".data

/-- Characters of the code-fence delimiter. -/
def fenceChars : List Char := "```".data

/-- Single-line strategy of `extractReplyMessage` (`reply-to-case.js`
lines 88-99): the first line whose trimmed text starts with `/reply` and
whose remainder after the token is non-empty once trimmed yields that
remainder; a matching line with an empty remainder is skipped and the scan
continues. -/
def lineScan : List String → Option String
  | [] => none
  | line :: rest =>
    let trimmed := jsTrim line
    if strStartsWith trimmed "/reply" then
      let message := jsTrim ⟨trimmed.data.drop 6⟩
      if message != "" then some message else lineScan rest
    else lineScan rest

/-- Lazy capture of the regex `([\s\S]+?)(?:```|$)` once at least one
character has been read: stop before the first occurrence of the fence,
or at the end of input. -/
def captureRest : List Char → List Char
  | [] => []
  | c :: rest =>
    if fenceChars.isPrefixOf (c :: rest) then []
    else c :: captureRest rest

/-- The regex group `[\s\S]+?` must consume at least one character before
the terminator `(?:```|$)` is tried. -/
def captureFence : List Char → List Char
  | [] => []
  | c :: rest => c :: captureRest rest

/-- Match of `/\/reply\s+([\s\S]+?)(?:```|$)/` anchored at the current
position: the text must start with `/reply` followed by at least one
whitespace character and at least one further character.  The greedy `\s+`
takes every whitespace character it can while leaving one character for
the mandatory lazy group, which then stops at the first fence or at the
end of input. -/
def tryMatchAt (cs : List Char) : Option (List Char) :=
  if replyToken.isPrefixOf cs then
    let after := cs.drop 6
    let w := (after.takeWhile isJsWhitespace).length
    if 1 ≤ w ∧ 2 ≤ after.length then
      some (captureFence (after.drop (min w (after.length - 1))))
    else none
  else none

/-- Leftmost-match search of the multi-line regex (`reply-to-case.js`
line 106): try the match at every position, earliest first. -/
def regexScan : List Char → Option (List Char)
  | [] => none
  | c :: rest =>
    match tryMatchAt (c :: rest) with
    | some cap => some cap
    | none => regexScan rest

/-- Model of `extractReplyMessage(commentBody)` (`reply-to-case.js` lines
86-112): the single-line scan first; failing that, the multi-line regex,
whose captured group (always non-empty, hence truthy) is returned
trimmed; `none` models the `null` return. -/
def extractReplyMessage (commentBody : String) : Option String :=
  match lineScan (jsSplitLines commentBody) with
  | some m => some m
  | none =>
    match regexScan commentBody.data with
    | some cap => some (jsTrim ⟨cap⟩)
    | none => none

example : extractReplyMessage "/reply hello" = some "hello" := by decide
example : extractReplyMessage "no command here" = none := by decide
example : extractReplyMessage "```\n/reply\nline one\nline two\n```" =
    some "line one\nline two" := by decide
example : extractReplyMessage "text\n/reply\nmulti body" = some "multi body" := by decide
example : extractReplyMessage "/reply   " = some "" := by decide

/-!  Service-code mapping: `scripts/create-support-case.js`, lines 154-167. -/

/-- Value of `mapping[serviceName] || 'general-info'`: either a string (a
table entry, or the fallback), or a truthy member inherited from
`Object.prototype` - the `mapping` object literal inherits those, so a
lookup by such a name is truthy and short-circuits the `||` fallback. -/
inductive ServiceCodeResult where
  | code (s : String)
  | inherited (member : String)
  deriving DecidableEq, Repr

/-- Own property names of `Object.prototype`, inherited by every plain
object literal: looking one of them up yields the inherited function (or,
for `__proto__`, the prototype object), every one of them truthy. -/
def objectPrototypeMembers : List String :=
  ["constructor", "hasOwnProperty", "isPrototypeOf", "propertyIsEnumerable",
   "toLocaleString", "toString", "valueOf", "__defineGetter__",
   "__defineSetter__", "__lookupGetter__", "__lookupSetter__", "__proto__"]

/-- Model of `mapServiceCode(serviceName)` (`create-support-case.js` lines
154-167), `mapping[serviceName] || 'general-info'`: an own key of the
eight-entry table wins; otherwise the property lookup walks the prototype
chain, so the name of an `Object.prototype` member yields that truthy
inherited member; only a name missing from both gives `undefined` and
falls back to `general-info`. -/
def mapServiceCode (serviceName : String) : ServiceCodeResult :=
  if serviceName = "EC2" then .code "amazon-elastic-compute-cloud-linux"
  else if serviceName = "RDS" then .code "amazon-relational-database-service"
  else if serviceName = "S3" then .code "amazon-simple-storage-service"
  else if serviceName = "Lambda" then .code "aws-lambda"
  else if serviceName = "ECS" then .code "amazon-elastic-container-service"
  else if serviceName = "CloudFront" then .code "amazon-cloudfront"
  else if serviceName = "Route53" then .code "amazon-route53"
  else if serviceName = "VPC" then .code "amazon-virtual-private-cloud"
  else if objectPrototypeMembers.contains serviceName then .inherited serviceName
  else .code "general-info"

/-!  ChangeDetector and StateStore: `scripts/monitor-cases.js`. -/

/-- Communication of a case (`monitor-cases.js` uses `body`, `timeCreated`
and `submittedBy`; `timeCreated` is the dedup key). -/
structure Communication where
  body : String
  timeCreated : String
  submittedBy : Option String
  deriving DecidableEq, Repr

/-- Case record as polled from the support API and as persisted in the
state file.  `recentCommunications` models the optional
`recentCommunications.communications` array reached through optional
chaining in the scripts. -/
structure Case where
  caseId : String
  displayId : Option String
  subject : Option String
  status : String
  recentCommunications : Option (List Communication)
  deriving DecidableEq, Repr

/-- Outcome of reading and JSON-parsing the state file, the external input
of `loadState` (`monitor-cases.js` lines 270-285): the file may be absent
(`fs.existsSync` false), present but unparsable (`JSON.parse` throws), or
hold a parsed array of cases. -/
inductive StateFileRead where
  | missing
  | malformed
  | cases (cs : List Case)
  deriving DecidableEq, Repr

/-- Model of `loadState(stateFile)` (`monitor-cases.js` lines 270-285).
Returns the prior-state lookup (the object keyed by `caseId`, a later
duplicate overwriting an earlier one) and whether the warning branch ran:
a missing file skips the `if` body and returns `{}` without warning, an
unparsable file lands in `catch`, warns and returns `{}`. -/
def loadState (read : StateFileRead) : (String → Option Case) × Bool :=
  match read with
  | .missing => (fun _ => none, false)
  | .malformed => (fun _ => none, true)
  | .cases cs =>
    (fun id => cs.foldl (fun acc c => if c.caseId = id then some c else acc) none, false)

/-- Model of `getNewCommunications(currentCase, previousCase)`
(`monitor-cases.js` lines 101-108): the current communications whose
`timeCreated` is absent from the previous snapshot's set of timestamps,
in their original order. -/
def getNewCommunications (currentCase previousCase : Case) : List Communication :=
  let currentComms := currentCase.recentCommunications.getD []
  let previousComms := previousCase.recentCommunications.getD []
  let previousTimes := previousComms.map (fun c => c.timeCreated)
  currentComms.filter fun c => !(previousTimes.contains c.timeCreated)

/-- Change event detected for one case in one run, in the order
`checkCaseChanges` (`monitor-cases.js` lines 69-96) detects them: the
status branch (line 79) before the communications branch (line 88). -/
inductive CaseEvent where
  | statusChanged (caseId previous current : String)
  | newCommunications (caseId : String) (comms : List Communication)
  deriving DecidableEq, Repr

/-- Event view of `checkCaseChanges` (`monitor-cases.js` lines 69-96): no
prior snapshot detects nothing; otherwise a differing status fires
`statusChanged` and, independently, a non-empty `getNewCommunications`
result fires `newCommunications` with exactly that list. -/
def checkCaseEvents (caseData : Case) (previousCase : Option Case) : List CaseEvent :=
  match previousCase with
  | none => []
  | some prev =>
    (if caseData.status != prev.status then
      [CaseEvent.statusChanged caseData.caseId prev.status caseData.status]
    else []) ++
    (let newComms := getNewCommunications caseData prev
    if 0 < newComms.length then
      [CaseEvent.newCommunications caseData.caseId newComms]
    else [])

example :
    checkCaseEvents
      ⟨"c1", none, none, "resolved", some [⟨"b", "t1", none⟩]⟩
      (some ⟨"c1", none, none, "opened", some [⟨"b", "t1", none⟩]⟩)
      = [.statusChanged "c1" "opened" "resolved"] := by decide

example :
    checkCaseEvents
      ⟨"c1", none, none, "opened", some [⟨"b", "t1", none⟩, ⟨"b2", "t2", none⟩]⟩
      (some ⟨"c1", none, none, "opened", some [⟨"b", "t1", none⟩]⟩)
      = [.newCommunications "c1" [⟨"b2", "t2", none⟩]] := by decide

/-- Notification rendered and posted for a detected change: one comment
per status change (`notifyStatusChange`, `monitor-cases.js` lines 113-139),
one comment per new communication (`notifyNewCommunications`, lines
144-178). -/
inductive Notification where
  | statusChange (caseData previousCase : Case)
  | communication (caseData : Case) (comm : Communication)
  deriving DecidableEq, Repr

/-- Options of `monitorAllCases` used by the notification path
(`monitor-cases.js` lines 18-25): the tracker token and repository, absent
or empty values being falsy. -/
structure MonitorOptions where
  githubToken : Option String
  repository : Option String
  deriving DecidableEq, Repr

/-- Truthiness of `options.githubToken && options.repository`
(`monitor-cases.js` lines 82 and 92). -/
def MonitorOptions.truthy (o : MonitorOptions) : Bool :=
  jsTruthy o.githubToken && jsTruthy o.repository

/-- External collaborators of the monitor run.  `postComment` is the
issue-tracker comment API (`postCommentToIssue`, `monitor-cases.js` lines
202-237), which resolves or rejects per posted notification.
`findIssueNumber` is the case-to-issue lookup; the source's function
(lines 189-197) is a stub that always returns `null`, and the spec's
design notes record the mapping as unimplemented upstream, so the lookup
is a parameter here, with `findIssueNumberStub` its present value. -/
structure MonitorEnv where
  findIssueNumber : String → Option String → Option Nat
  postComment : Nat → Notification → Except String Unit

/-- Model of `findIssueNumber(caseId, repository)` as written
(`monitor-cases.js` lines 189-197): it logs a TODO and returns `null`. -/
def findIssueNumberStub : String → Option String → Option Nat := fun _ _ => none

/-- Model of `notifyStatusChange` (`monitor-cases.js` lines 113-139): a
failed issue lookup logs and returns; otherwise one comment is posted and
a rejection propagates.  The second component records the notifications
successfully posted. -/
def notifyStatusChange (env : MonitorEnv) (caseData previousCase : Case)
    (opts : MonitorOptions) : Except String Unit × List (Nat × Notification) :=
  match env.findIssueNumber caseData.caseId opts.repository with
  | none => (.ok (), [])
  | some n =>
    match env.postComment n (.statusChange caseData previousCase) with
    | .ok _ => (.ok (), [(n, .statusChange caseData previousCase)])
    | .error e => (.error e, [])

/-- Posting loop of `notifyNewCommunications` (`monitor-cases.js` lines
151-177): one comment per communication, in order; an awaited rejection
stops the loop and propagates. -/
def postCommunications (env : MonitorEnv) (n : Nat) (caseData : Case) :
    List Communication → Except String Unit × List (Nat × Notification)
  | [] => (.ok (), [])
  | comm :: rest =>
    match env.postComment n (.communication caseData comm) with
    | .error e => (.error e, [])
    | .ok _ =>
      let (r, posted) := postCommunications env n caseData rest
      (r, (n, .communication caseData comm) :: posted)

/-- Model of `notifyNewCommunications` (`monitor-cases.js` lines 144-178). -/
def notifyNewCommunications (env : MonitorEnv) (caseData : Case)
    (communications : List Communication) (opts : MonitorOptions) :
    Except String Unit × List (Nat × Notification) :=
  match env.findIssueNumber caseData.caseId opts.repository with
  | none => (.ok (), [])
  | some n => postCommunications env n caseData communications

/-- Model of `checkCaseChanges(caseData, previousState, options)`
(`monitor-cases.js` lines 69-96): a new case returns at once; a changed
status awaits `notifyStatusChange` when the token and repository are
truthy; then a non-empty `getNewCommunications` result awaits
`notifyNewCommunications`.  No failure is caught here, so a rejection
propagates to the caller. -/
def checkCaseChanges (env : MonitorEnv) (caseData : Case)
    (previousState : String → Option Case) (opts : MonitorOptions) :
    Except String Unit × List (Nat × Notification) :=
  match previousState caseData.caseId with
  | none => (.ok (), [])
  | some previousCase =>
    let step1 :=
      if caseData.status != previousCase.status && opts.truthy then
        notifyStatusChange env caseData previousCase opts
      else (.ok (), [])
    match step1 with
    | (.error e, posted) => (.error e, posted)
    | (.ok _, posted1) =>
      let newComms := getNewCommunications caseData previousCase
      if 0 < newComms.length && opts.truthy then
        let (r, posted2) := notifyNewCommunications env caseData newComms opts
        (r, posted1 ++ posted2)
      else (.ok (), posted1)

/-- The `for (const caseData of response.cases)` loop of `monitorAllCases`
(`monitor-cases.js` lines 48-53): each case is awaited in order, with no
per-case error handling, so the first rejection ends the loop. -/
def processCases (env : MonitorEnv) (opts : MonitorOptions)
    (previousState : String → Option Case) :
    List Case → Except String Unit × List (Nat × Notification)
  | [] => (.ok (), [])
  | caseData :: rest =>
    match checkCaseChanges env caseData previousState opts with
    | (.error e, posted) => (.error e, posted)
    | (.ok _, posted) =>
      let (r, posted2) := processCases env opts previousState rest
      (r, posted ++ posted2)

/-- Model of one `monitorAllCases` run (`monitor-cases.js` lines 18-64)
from the poll response onward: load the prior state, check every polled
case, and on success persist the state file.  `saveState(stateFile,
response.cases)` (lines 290-296) writes exactly the polled list, which the
`.ok` value carries; a rejection inside the loop reaches the outer
`catch`, is logged and rethrown (lines 60-63), so the state file is not
rewritten. -/
def monitorRun (env : MonitorEnv) (opts : MonitorOptions)
    (stateFile : StateFileRead) (polled : List Case) :
    Except String (List Case) × List (Nat × Notification) :=
  match processCases env opts (loadState stateFile).1 polled with
  | (.ok _, posted) => (.ok polled, posted)
  | (.error e, posted) => (.error e, posted)

/-!  RetryingRequestExecutor: `src/unnamed/part_001` (`callOpenAI` lines
51-117 and `callClaude` lines 122-187). -/

/-- The `error` field of a parsed provider response body. -/
structure ApiErrorBody where
  message : Option String
  errType : Option String
  deriving DecidableEq, Repr

/-- Parsed HTTP response of one attempt: the status code, the value
`parseInt(res.headers['retry-after'])` yields (`none` models `NaN` from a
missing or unparsable header), the optional `error` body, and the payload
text (`response.choices[0].message.content` for OpenAI,
`response.content[0].text` for Claude) when present. -/
structure HttpResponse where
  statusCode : Nat
  retryAfter : Option Nat
  error : Option ApiErrorBody
  content : Option String
  deriving DecidableEq, Repr

/-- Error surfaced by the callers: the message, the provider error
classification copied from `response.error.type`, and the status code. -/
structure ApiError where
  message : String
  errType : Option String
  statusCode : Nat
  deriving DecidableEq, Repr

/-- Model of `error.message || dflt`. -/
def jsOrString (v : Option String) (dflt : String) : String :=
  match v with
  | some m => if m = "" then dflt else m
  | none => dflt

/-- Wait of one retry: `parseInt(res.headers['retry-after']) ||
Math.pow(2, retryCount) * 1000` (`part_001` lines 83 and 153) - the
parsed hint when it is a nonzero number (`0` and `NaN` are falsy), else
the doubling backoff in milliseconds. -/
def backoffWait (retryAfter : Option Nat) (retryCount : Nat) : Nat :=
  match retryAfter with
  | some h => if h = 0 then 2 ^ retryCount * 1000 else h
  | none => 2 ^ retryCount * 1000

/-- Model of `callOpenAI(prompt, apiKey, retryCount, maxRetries)`
(`part_001` lines 51-117).  The HTTP layer is external, so the response of
each attempt is a parameter indexed by `retryCount`.  A 429 status with
`retryCount < maxRetries` waits (the performed waits are returned in
order) and recurses with `retryCount + 1`; otherwise a response with an
`error` body rejects with the message, classification and status code,
and a response without one resolves to its content (a missing content
field would be a thrown `TypeError`, rejected with the status code). -/
def callOpenAI (responses : Nat → HttpResponse) (retryCount maxRetries : Nat) :
    Except ApiError String × List Nat :=
  let res := responses retryCount
  if h : res.statusCode = 429 ∧ retryCount < maxRetries then
    let wait := backoffWait res.retryAfter retryCount
    let (r, waits) := callOpenAI responses (retryCount + 1) maxRetries
    (r, wait :: waits)
  else
    match res.error with
    | some e => (.error ⟨jsOrString e.message "OpenAI API error", e.errType, res.statusCode⟩, [])
    | none =>
      match res.content with
      | some c => (.ok c, [])
      | none => (.error ⟨"TypeError", none, res.statusCode⟩, [])
  termination_by maxRetries - retryCount
  decreasing_by omega

/-- Model of `callClaude(prompt, apiKey, retryCount, maxRetries)`
(`part_001` lines 122-187): identical control flow to `callOpenAI`, with
the Claude default error message. -/
def callClaude (responses : Nat → HttpResponse) (retryCount maxRetries : Nat) :
    Except ApiError String × List Nat :=
  let res := responses retryCount
  if h : res.statusCode = 429 ∧ retryCount < maxRetries then
    let wait := backoffWait res.retryAfter retryCount
    let (r, waits) := callClaude responses (retryCount + 1) maxRetries
    (r, wait :: waits)
  else
    match res.error with
    | some e => (.error ⟨jsOrString e.message "Claude API error", e.errType, res.statusCode⟩, [])
    | none =>
      match res.content with
      | some c => (.ok c, [])
      | none => (.error ⟨"TypeError", none, res.statusCode⟩, [])
  termination_by maxRetries - retryCount
  decreasing_by omega

/-!  Claim C8: service-code mapping. -/

/-- C8, counterexample: the claimed universal fallback fails twice over.
ECS, a name outside the claimed four-entry list, maps to its own table
entry; and `toString`, also outside that list, yields the truthy member
inherited from `Object.prototype` - neither gives `general-info`. -/
theorem C8_counterexample :
    ("ECS" ∉ ["EC2", "RDS", "S3", "Lambda"] ∧
      mapServiceCode "ECS" ≠ .code "general-info") ∧
    ("toString" ∉ ["EC2", "RDS", "S3", "Lambda"] ∧
      mapServiceCode "toString" ≠ .code "general-info") := by decide

/-- C8, amended: the table has eight entries (EC2, RDS, S3, Lambda, ECS,
CloudFront, Route53, VPC), each mapped to its code; a name that names a
member inherited from `Object.prototype` (such as `toString` or
`constructor`) yields that truthy inherited member, because the lookup
walks the prototype chain; and a name that is neither a table entry nor
an inherited member name maps to the fallback `general-info`. -/
theorem C8_mapServiceCode_total :
    mapServiceCode "EC2" = .code "amazon-elastic-compute-cloud-linux" ∧
    mapServiceCode "RDS" = .code "amazon-relational-database-service" ∧
    mapServiceCode "S3" = .code "amazon-simple-storage-service" ∧
    mapServiceCode "Lambda" = .code "aws-lambda" ∧
    mapServiceCode "ECS" = .code "amazon-elastic-container-service" ∧
    mapServiceCode "CloudFront" = .code "amazon-cloudfront" ∧
    mapServiceCode "Route53" = .code "amazon-route53" ∧
    mapServiceCode "VPC" = .code "amazon-virtual-private-cloud" ∧
    (∀ s ∈ objectPrototypeMembers, mapServiceCode s = .inherited s) ∧
    (∀ s : String,
      s ∉ ["EC2", "RDS", "S3", "Lambda", "ECS", "CloudFront", "Route53", "VPC"] →
      s ∉ objectPrototypeMembers →
      mapServiceCode s = .code "general-info") := by
  refine ⟨rfl, rfl, rfl, rfl, rfl, rfl, rfl, rfl, by decide, ?_⟩
  intro s hs hp
  simp only [List.mem_cons, List.not_mem_nil, or_false, not_or] at hs
  obtain ⟨h1, h2, h3, h4, h5, h6, h7, h8⟩ := hs
  have hpc : objectPrototypeMembers.contains s = false := by
    cases hcon : objectPrototypeMembers.contains s with
    | false => rfl
    | true => exact absurd (List.elem_iff.1 hcon) hp
  simp [mapServiceCode, h1, h2, h3, h4, h5, h6, h7, h8, hpc, hp]

/-- C8, witness: a service name outside the table that names no inherited
member falls back to `general-info`. -/
theorem C8_witness : mapServiceCode "DynamoDB" = .code "general-info" :=
  C8_mapServiceCode_total.2.2.2.2.2.2.2.2.2 "DynamoDB" (by decide) (by decide)

/-!  Claim C9: state-file loading degrades to the empty state. -/

/-- C9, counterexample: a missing state file takes the
`fs.existsSync(stateFile)` false branch of `loadState`, which returns the
empty state without running the warning branch, while the claim asserts a
warning is logged in that case as well. -/
theorem C9_counterexample :
    (loadState StateFileRead.missing).2 = false ∧
    (loadState StateFileRead.missing).1 "case-1" = none := ⟨rfl, rfl⟩

/-- C9, amended: a missing state file yields the empty prior state
silently; an unparsable state file yields the empty prior state with a
warning logged; neither raises an error that fails the run. -/
theorem C9_loadState_degrades :
    (∀ id, (loadState StateFileRead.missing).1 id = none) ∧
    (loadState StateFileRead.missing).2 = false ∧
    (∀ id, (loadState StateFileRead.malformed).1 id = none) ∧
    (loadState StateFileRead.malformed).2 = true :=
  ⟨fun _ => rfl, rfl, fun _ => rfl, rfl⟩

/-!  Claim C1: persistence of snapshots across runs. -/

/-- Resolved case used as concrete input: present in the prior state,
absent from the newest poll. -/
def caseA : Case := ⟨"case-A", none, none, "resolved", none⟩

/-- Second concrete case, never polled; used by witnesses. -/
def caseB : Case := ⟨"case-B", none, none, "opened", none⟩

/-- Environment whose transport always succeeds. -/
def envAllOk : MonitorEnv := ⟨findIssueNumberStub, fun _ _ => .ok ()⟩

/-- C1, counterexample: the prior state file holds the snapshot of
`case-A`, the newest poll is empty (as for a case that became resolved
while the poll excludes resolved cases), the run succeeds - and the state
written at the end of the run is the empty list: the snapshot of `case-A`
is deleted, while the claim asserts it is retained. -/
theorem C1_counterexample :
    (loadState (StateFileRead.cases [caseA])).1 "case-A" = some caseA ∧
    monitorRun envAllOk ⟨none, none⟩ (StateFileRead.cases [caseA]) [] = (.ok [], []) :=
  ⟨rfl, rfl⟩

/-- C1, amended: the state written at the end of a successful monitoring
run is exactly the newest poll's case list, independent of the prior
state; a case present in the prior persisted state but absent from the
newest poll is dropped from the persisted state, not retained. -/
theorem C1_saved_state_is_poll (env : MonitorEnv) (opts : MonitorOptions)
    (sf : StateFileRead) (polled saved : List Case)
    (posted : List (Nat × Notification))
    (h : monitorRun env opts sf polled = (.ok saved, posted)) :
    saved = polled ∧
    ∀ c : Case, c.caseId ∉ polled.map Case.caseId → c.caseId ∉ saved.map Case.caseId := by
  unfold monitorRun at h
  rcases hp : processCases env opts (loadState sf).1 polled with ⟨r, ps⟩
  rw [hp] at h
  cases r with
  | ok u =>
    simp only [Prod.mk.injEq, Except.ok.injEq] at h
    obtain ⟨h1, _⟩ := h
    subst h1
    exact ⟨rfl, fun c hc => hc⟩
  | error e => simp at h

/-- C1, witness: on a concrete successful run polling only `case-A`, the
case `case-B` is absent from the saved state. -/
theorem C1_witness : caseB.caseId ∉ ([caseA].map Case.caseId) :=
  (C1_saved_state_is_poll envAllOk ⟨none, none⟩ .missing [caseA] [caseA] [] rfl).2
    caseB (by decide)

/-!  Concrete case pair with a changed status, used by the
change-detection witness. -/

/-- Prior snapshot of the concrete case. -/
def case1prev : Case := ⟨"case-1", none, none, "opened", none⟩

/-- Newest poll of the concrete case, with a changed status. -/
def case1cur : Case := ⟨"case-1", none, none, "resolved", none⟩

/-!  Claim C3: events detected per case. -/

/-- Predicate selecting the status-change events of a run. -/
def isStatusChangedEvent : CaseEvent → Bool
  | .statusChanged _ _ _ => true
  | .newCommunications _ _ => false

/-- C3: with a prior snapshot, a transition from `opened` to `resolved`
fires exactly one `statusChanged (opened, resolved)` event; an identical
status together with an identical set of communication timestamps fires
no event at all; and a `newCommunications` event always carries exactly
the ordered sublist of current communications whose `timeCreated` is
absent from the prior snapshot's timestamps. -/
theorem C3_change_detection :
    (∀ c p : Case, p.status = "opened" → c.status = "resolved" →
      (checkCaseEvents c (some p)).filter isStatusChangedEvent
        = [.statusChanged c.caseId "opened" "resolved"]) ∧
    (∀ c p : Case, c.status = p.status →
      (∀ t : String,
        ((c.recentCommunications.getD []).map Communication.timeCreated).contains t
          = ((p.recentCommunications.getD []).map Communication.timeCreated).contains t) →
      checkCaseEvents c (some p) = []) ∧
    (∀ (c p : Case) (comms : List Communication),
      CaseEvent.newCommunications c.caseId comms ∈ checkCaseEvents c (some p) →
      comms = (c.recentCommunications.getD []).filter
        (fun m =>
          !(((p.recentCommunications.getD []).map Communication.timeCreated).contains
            m.timeCreated))) := by
  refine ⟨?_, ?_, ?_⟩
  · intro c p hp hc
    have hbne : (("resolved" : String) != "opened") = true := by decide
    simp only [checkCaseEvents, hp, hc, hbne, if_true, List.filter_append]
    split
    · simp [isStatusChangedEvent]
    · simp [isStatusChangedEvent]
  · intro c p hs hset
    have hnc : getNewCommunications c p = [] := by
      simp only [getNewCommunications]
      rw [List.filter_eq_nil_iff]
      intro m hm
      have hmemc : m.timeCreated ∈
          (c.recentCommunications.getD []).map Communication.timeCreated :=
        List.mem_map_of_mem Communication.timeCreated hm
      have hcc : ((c.recentCommunications.getD []).map
          Communication.timeCreated).contains m.timeCreated = true := by
        simpa [List.contains, List.elem_iff] using hmemc
      have hpc : ((p.recentCommunications.getD []).map
          Communication.timeCreated).contains m.timeCreated = true := by
        rw [← hset]
        exact hcc
      simp only [hpc, Bool.not_true]
      exact Bool.false_ne_true
    simp [checkCaseEvents, hs, hnc]
  · intro c p comms hmem
    simp only [checkCaseEvents] at hmem
    rcases List.mem_append.1 hmem with h | h
    · split at h <;> simp at h
    · split at h
      · simp only [List.mem_singleton] at h
        injection h
      · simp at h

/-- C3, witness: the concrete `opened` to `resolved` transition of
`case-1` fires exactly the one status-change event. -/
theorem C3_witness :
    (checkCaseEvents case1cur (some case1prev)).filter isStatusChangedEvent
      = [.statusChanged "case-1" "opened" "resolved"] :=
  C3_change_detection.1 case1cur case1prev rfl rfl

/-!  Claim C4: the retrying executor. -/

/-- Unfolding of `callOpenAI` on a rate-limited attempt below the retry
cap: wait, then retry with `retryCount + 1`. -/
theorem callOpenAI_retry (responses : Nat → HttpResponse) (rc mr : Nat)
    (h429 : (responses rc).statusCode = 429) (hlt : rc < mr) :
    callOpenAI responses rc mr =
      ((callOpenAI responses (rc + 1) mr).1,
        backoffWait (responses rc).retryAfter rc ::
          (callOpenAI responses (rc + 1) mr).2) := by
  rw [callOpenAI]
  rcases hrec : callOpenAI responses (rc + 1) mr with ⟨r, ws⟩
  simp [h429, hlt, hrec]

/-- Unfolding of `callOpenAI` on a final attempt (not rate-limited, or at
the retry cap). -/
theorem callOpenAI_final (responses : Nat → HttpResponse) (rc mr : Nat)
    (hstop : ¬((responses rc).statusCode = 429 ∧ rc < mr)) :
    callOpenAI responses rc mr =
      (match (responses rc).error with
       | some e =>
         (.error ⟨jsOrString e.message "OpenAI API error", e.errType,
            (responses rc).statusCode⟩, [])
       | none =>
         match (responses rc).content with
         | some c => (.ok c, [])
         | none => (.error ⟨"TypeError", none, (responses rc).statusCode⟩, [])) := by
  rw [callOpenAI]
  simp [hstop]

/-- Unfolding of `callClaude` on a rate-limited attempt below the retry
cap. -/
theorem callClaude_retry (responses : Nat → HttpResponse) (rc mr : Nat)
    (h429 : (responses rc).statusCode = 429) (hlt : rc < mr) :
    callClaude responses rc mr =
      ((callClaude responses (rc + 1) mr).1,
        backoffWait (responses rc).retryAfter rc ::
          (callClaude responses (rc + 1) mr).2) := by
  rw [callClaude]
  rcases hrec : callClaude responses (rc + 1) mr with ⟨r, ws⟩
  simp [h429, hlt, hrec]

/-- Unfolding of `callClaude` on a final attempt. -/
theorem callClaude_final (responses : Nat → HttpResponse) (rc mr : Nat)
    (hstop : ¬((responses rc).statusCode = 429 ∧ rc < mr)) :
    callClaude responses rc mr =
      (match (responses rc).error with
       | some e =>
         (.error ⟨jsOrString e.message "Claude API error", e.errType,
            (responses rc).statusCode⟩, [])
       | none =>
         match (responses rc).content with
         | some c => (.ok c, [])
         | none => (.error ⟨"TypeError", none, (responses rc).statusCode⟩, [])) := by
  rw [callClaude]
  simp [hstop]

/-- C4, counterexample: a rate-limited first attempt carrying the explicit
wait hint `0` waits the fallback 1000 ms, not the provided hint, because
`parseInt(header) || fallback` treats `0` as falsy. -/
def c4hintZeroResponses : Nat → HttpResponse := fun i =>
  if i = 0 then ⟨429, some 0, some ⟨some "rate limited", some "rate_limit_error"⟩, none⟩
  else ⟨200, none, none, some "done"⟩

/-- C4, counterexample theorem: the hint `0` is provided on attempt one,
yet the performed wait is 1000 ms. -/
theorem C4_counterexample :
    (c4hintZeroResponses 0).retryAfter = some 0 ∧
    (callOpenAI c4hintZeroResponses 0 3).2 = [1000] := by
  refine ⟨rfl, ?_⟩
  rw [callOpenAI_retry c4hintZeroResponses 0 3 rfl (by norm_num),
    callOpenAI_final c4hintZeroResponses 1 3 (by decide)]
  rfl

/-- C4: under the default cap (`maxRetries = 3`), rate limiting on the
first two attempts with success on the third returns the third attempt's
payload, with the two waits performed; rate limiting on every attempt
surfaces the final error tagged with its status code and the provider's
error classification after three waits; and each wait is the parsed
retry-after hint when that is nonzero, else 1000, 2000, 4000 ms doubling
per attempt.  Both callers behave identically. -/
theorem C4_retry_executor :
    (∀ (responses : Nat → HttpResponse) (c : String),
      (responses 0).statusCode = 429 → (responses 1).statusCode = 429 →
      (responses 2).statusCode ≠ 429 → (responses 2).error = none →
      (responses 2).content = some c →
      callOpenAI responses 0 3 =
        (.ok c, [backoffWait (responses 0).retryAfter 0,
                 backoffWait (responses 1).retryAfter 1]) ∧
      callClaude responses 0 3 =
        (.ok c, [backoffWait (responses 0).retryAfter 0,
                 backoffWait (responses 1).retryAfter 1])) ∧
    (∀ (responses : Nat → HttpResponse) (e : ApiErrorBody),
      (responses 0).statusCode = 429 → (responses 1).statusCode = 429 →
      (responses 2).statusCode = 429 → (responses 3).statusCode = 429 →
      (responses 3).error = some e →
      callOpenAI responses 0 3 =
        (.error ⟨jsOrString e.message "OpenAI API error", e.errType, 429⟩,
         [backoffWait (responses 0).retryAfter 0,
          backoffWait (responses 1).retryAfter 1,
          backoffWait (responses 2).retryAfter 2]) ∧
      callClaude responses 0 3 =
        (.error ⟨jsOrString e.message "Claude API error", e.errType, 429⟩,
         [backoffWait (responses 0).retryAfter 0,
          backoffWait (responses 1).retryAfter 1,
          backoffWait (responses 2).retryAfter 2])) ∧
    (∀ h : Nat, h ≠ 0 → ∀ i : Nat, backoffWait (some h) i = h) ∧
    (∀ i : Nat, backoffWait none i = 2 ^ i * 1000) ∧
    backoffWait none 0 = 1000 ∧ backoffWait none 1 = 2000 ∧
    backoffWait none 2 = 4000 := by
  refine ⟨?_, ?_, ?_, ?_, rfl, rfl, rfl⟩
  · intro responses c h0 h1 h2 herr hcon
    have hfin : callOpenAI responses 2 3 = (.ok c, []) := by
      rw [callOpenAI_final responses 2 3 (fun hcontra => h2 hcontra.1)]
      rw [herr, hcon]
    have hfin' : callClaude responses 2 3 = (.ok c, []) := by
      rw [callClaude_final responses 2 3 (fun hcontra => h2 hcontra.1)]
      rw [herr, hcon]
    constructor
    · rw [callOpenAI_retry responses 0 3 h0 (by norm_num),
        callOpenAI_retry responses 1 3 h1 (by norm_num), hfin]
    · rw [callClaude_retry responses 0 3 h0 (by norm_num),
        callClaude_retry responses 1 3 h1 (by norm_num), hfin']
  · intro responses e h0 h1 h2 h3 herr
    have hfin : callOpenAI responses 3 3 =
        (.error ⟨jsOrString e.message "OpenAI API error", e.errType, 429⟩, []) := by
      rw [callOpenAI_final responses 3 3 (fun hcontra => by omega)]
      rw [herr, h3]
    have hfin' : callClaude responses 3 3 =
        (.error ⟨jsOrString e.message "Claude API error", e.errType, 429⟩, []) := by
      rw [callClaude_final responses 3 3 (fun hcontra => by omega)]
      rw [herr, h3]
    constructor
    · rw [callOpenAI_retry responses 0 3 h0 (by norm_num),
        callOpenAI_retry responses 1 3 h1 (by norm_num),
        callOpenAI_retry responses 2 3 h2 (by norm_num), hfin]
    · rw [callClaude_retry responses 0 3 h0 (by norm_num),
        callClaude_retry responses 1 3 h1 (by norm_num),
        callClaude_retry responses 2 3 h2 (by norm_num), hfin']
  · intro h hne i
    simp [backoffWait, hne]
  · intro i
    rfl

/-- Concrete response stream: rate limited twice without a hint, then a
successful attempt. -/
def c4okResponses : Nat → HttpResponse := fun i =>
  if i < 2 then ⟨429, none, some ⟨some "rate limited", some "rate_limit_error"⟩, none⟩
  else ⟨200, none, none, some "done"⟩

/-- C4, witness: the concrete stream returns the third attempt's payload
after the two backoff waits. -/
theorem C4_witness :
    callOpenAI c4okResponses 0 3 =
      (.ok "done", [backoffWait none 0, backoffWait none 1]) :=
  (C4_retry_executor.1 c4okResponses "done" rfl rfl (by decide) rfl rfl).1

/-!  Claims C5 and C6: credential resolution. -/

/-- Current profile after the parse loop has consumed the given lines. -/
def cpAfter (cp : Option String) : List String → Option String
  | [] => cp
  | line :: rest =>
    if isProfileHeader (jsTrim line) then
      cpAfter (some (headerInner (jsTrim line))) rest
    else cpAfter cp rest

/-- Relation between the `foldl` of `parseCredentials` and the recursive
`profilePairs` view: the loop's final profile is `cpAfter` and its
collected pairs extend the accumulator with `profilePairs`. -/
theorem credFold_eq (profile : String) :
    ∀ (lines : List String) (cp : Option String) (acc : List (String × String)),
      lines.foldl (credStep profile) (cp, acc)
        = (cpAfter cp lines, acc ++ profilePairs profile cp lines) := by
  intro lines
  induction lines with
  | nil => intro cp acc; simp [cpAfter, profilePairs]
  | cons l rest ih =>
    intro cp acc
    simp only [List.foldl_cons]
    by_cases hh : isProfileHeader (jsTrim l)
    · rw [show credStep profile (cp, acc) l = (some (headerInner (jsTrim l)), acc
        ) from by simp [credStep, hh]]
      rw [ih]
      simp [cpAfter, profilePairs, hh]
    · cases cp with
      | none =>
        rw [show credStep profile (none, acc) l = (none, acc) from by
          simp [credStep, hh]]
        rw [ih]
        simp [cpAfter, profilePairs, hh]
      | some c =>
        by_cases hkv : (c != "" && strContainsChar (jsTrim l) '=') = true
        · by_cases hcp : c = profile
          · subst hcp
            have hkv' := hkv
            simp only [Bool.and_eq_true, bne_iff_ne, ne_eq] at hkv'
            rw [show credStep c (some c, acc) l
                = (some c, acc ++ [(kvKey (jsTrim l), kvValue (jsTrim l))]) from by
              simp [credStep, hh, hkv'.1, hkv'.2]]
            rw [ih]
            simp [cpAfter, profilePairs, hh, hkv'.1, hkv'.2]
          · rw [show credStep profile (some c, acc) l = (some c, acc) from by
              simp [credStep, hh, hkv, hcp]]
            rw [ih]
            simp [cpAfter, profilePairs, hh, hkv, hcp]
        · rw [show credStep profile (some c, acc) l = (some c, acc) from by
            simp [credStep, hh, hkv]]
          rw [ih]
          simp [cpAfter, profilePairs, hh, hkv]

/-- The parser's result is `credsOfPairs` of the requested profile's own
pairs. -/
theorem parseCredentials_eq_profilePairs (content profile : String) :
    parseCredentials content profile
      = credsOfPairs (profilePairs profile none (jsSplitLines content)) := by
  simp only [parseCredentials, credsOfPairs, credFold_eq, List.nil_append]

/-- Splitting the line list splits `profilePairs` at the loop's
intermediate current profile. -/
theorem profilePairs_append (profile : String) :
    ∀ (xs ys : List String) (cp : Option String),
      profilePairs profile cp (xs ++ ys)
        = profilePairs profile cp xs ++ profilePairs profile (cpAfter cp xs) ys := by
  intro xs
  induction xs with
  | nil => intro ys cp; simp [profilePairs, cpAfter]
  | cons l rest ih =>
    intro ys cp
    by_cases hh : isProfileHeader (jsTrim l)
    · simp [profilePairs, cpAfter, hh, ih]
    · cases cp with
      | none => simp [profilePairs, cpAfter, hh, ih]
      | some c =>
        simp only [profilePairs, cpAfter, hh, Bool.false_eq_true, if_false, ih]
        split
        · split
          · simp only [List.cons_append]
            exact congrArg _ (ih ys (some c))
          · exact ih ys (some c)
        · exact ih ys (some c)

/-- Lines none of which is a header that names the requested profile
collect nothing when the loop is not currently inside that profile. -/
theorem profilePairs_eq_nil (profile : String) :
    ∀ (ls : List String) (cp : Option String),
      (∀ l ∈ ls, isProfileHeader (jsTrim l) = true →
        headerInner (jsTrim l) ≠ profile) →
      cp ≠ some profile →
      profilePairs profile cp ls = [] := by
  intro ls
  induction ls with
  | nil => intro cp _ _; rfl
  | cons l rest ih =>
    intro cp hno hcp
    by_cases hh : isProfileHeader (jsTrim l)
    · simp only [profilePairs, hh, if_true]
      refine ih _ (fun x hx hhx => hno x (List.mem_cons_of_mem _ hx) hhx) ?_
      intro hcon
      exact hno l (List.mem_cons_self l rest) hh (Option.some_injective _ hcon)
    · have htail := ih cp (fun x hx hhx => hno x (List.mem_cons_of_mem _ hx) hhx) hcp
      cases cp with
      | none => simpa [profilePairs, hh] using htail
      | some c =>
        have hcne : c ≠ profile := fun hc => hcp (by rw [hc])
        by_cases hkv : (c != "" && strContainsChar (jsTrim l) '=') = true <;>
          simp [profilePairs, hh, hkv, hcne, htail]

/-- Lines without headers leave the current profile unchanged. -/
theorem cpAfter_no_header :
    ∀ (ls : List String) (cp : Option String),
      (∀ l ∈ ls, isProfileHeader (jsTrim l) = false) →
      cpAfter cp ls = cp := by
  intro ls
  induction ls with
  | nil => intro cp _; rfl
  | cons l rest ih =>
    intro cp hno
    have hh := hno l (List.mem_cons_self l rest)
    simp only [cpAfter, hh, Bool.false_eq_true, if_false]
    exact ih cp fun x hx => hno x (List.mem_cons_of_mem _ hx)

/-- C5: credential resolution reads only the requested profile's own key
lines.  The result is a function of the profile's collected pairs; a
complete profile (truthy key id and secret) yields exactly its three
fields; and deleting a whole section that belongs to a different profile
never changes the result. -/
theorem C5_profile_resolution :
    (∀ content profile : String,
      parseCredentials content profile
        = credsOfPairs (profilePairs profile none (jsSplitLines content))) ∧
    (∀ content profile idv sv : String,
      jsObjGet (profilePairs profile none (jsSplitLines content)) "aws_access_key_id"
        = some idv → idv ≠ "" →
      jsObjGet (profilePairs profile none (jsSplitLines content)) "aws_secret_access_key"
        = some sv → sv ≠ "" →
      parseCredentials content profile
        = some ⟨idv, sv,
            jsObjGet (profilePairs profile none (jsSplitLines content))
              "aws_session_token"⟩) ∧
    (∀ (content1 content2 : String) (ls1 qlines ls2 : List String)
        (profile hline : String),
      jsSplitLines content1 = ls1 ++ hline :: (qlines ++ ls2) →
      jsSplitLines content2 = ls1 ++ ls2 →
      isProfileHeader (jsTrim hline) = true →
      headerInner (jsTrim hline) ≠ profile →
      (∀ l ∈ qlines, isProfileHeader (jsTrim l) = false) →
      (ls2 = [] ∨ isProfileHeader (jsTrim (ls2.headD "")) = true) →
      parseCredentials content1 profile = parseCredentials content2 profile) := by
  refine ⟨parseCredentials_eq_profilePairs, ?_, ?_⟩
  · intro content profile idv sv hid hne hsv hne'
    rw [parseCredentials_eq_profilePairs]
    unfold credsOfPairs
    rw [hid, hsv]
    simp [jsTruthy, hne, hne']
  · intro content1 content2 ls1 qlines ls2 profile hline hsplit1 hsplit2
      hhl hq hqlines hls2
    rw [parseCredentials_eq_profilePairs, parseCredentials_eq_profilePairs,
      hsplit1, hsplit2]
    have hpairs : profilePairs profile none (ls1 ++ hline :: (qlines ++ ls2))
        = profilePairs profile none (ls1 ++ ls2) := by
      rw [profilePairs_append, profilePairs_append]
      congr 1
      have hstep : profilePairs profile (cpAfter none ls1) (hline :: (qlines ++ ls2))
          = profilePairs profile (some (headerInner (jsTrim hline))) (qlines ++ ls2) := by
        simp [profilePairs, hhl]
      rw [hstep, profilePairs_append]
      have hqnil : profilePairs profile (some (headerInner (jsTrim hline))) qlines
          = [] := by
        refine profilePairs_eq_nil profile qlines _ ?_ ?_
        · intro l hl hheader
          exact absurd hheader (by simp [hqlines l hl])
        · intro hcon
          exact hq (Option.some_injective _ hcon)
      rw [hqnil, cpAfter_no_header qlines _ hqlines, List.nil_append]
      rcases hls2 with rfl | hhead
      · rfl
      · cases ls2 with
        | nil => rfl
        | cons l2 t2 =>
          simp only [List.headD_cons] at hhead
          simp [profilePairs, hhead]
    rw [hpairs]

/-- Credentials text with two complete profiles, used by witnesses. -/
def credsTwoProfiles : String :=
  "[p]\naws_access_key_id=A\naws_secret_access_key=S\n" ++
  "[q]\naws_access_key_id=B\naws_secret_access_key=T"

/-- C5, witness: resolving profile `p` of the two-profile text returns
exactly the fields of `p`. -/
theorem C5_witness :
    parseCredentials credsTwoProfiles "p" = some ⟨"A", "S", none⟩ :=
  C5_profile_resolution.2.1 credsTwoProfiles "p" "A" "S" rfl (by decide) rfl
    (by decide)

/-- Every member of a list is an infix of its comma-separated join. -/
theorem mem_joinComma_isInfix :
    ∀ (l : List String) (s : String), s ∈ l → s.data <:+: (joinComma l).data := by
  intro l
  induction l with
  | nil => intro s hs; simp at hs
  | cons a rest ih =>
    intro s hs
    rcases List.mem_cons.1 hs with rfl | hmem
    · cases rest with
      | nil => exact List.infix_refl _
      | cons b t =>
        show s.data <:+: ((s ++ ", ") ++ joinComma (b :: t)).data
        rw [String.data_append, String.data_append, List.append_assoc]
        exact (List.prefix_append s.data _).isInfix
    · cases rest with
      | nil => simp at hmem
      | cons b t =>
        show s.data <:+: ((a ++ ", ") ++ joinComma (b :: t)).data
        rw [String.data_append]
        exact (ih s hmem).trans (List.suffix_append _ _).isInfix

/-- C6: when the credentials text lacks the requested profile, and when
the requested profile's collected keys leave both the key id and the
secret falsy, resolution fails with the error whose text lists, and hence
contains, every profile name found in the text. -/
theorem C6_missing_profile_error (path content profile : String)
    (h : profile ∉ getAvailableProfiles content ∨
      (jsTruthy (jsObjGet (profilePairs profile none (jsSplitLines content))
          "aws_access_key_id") = false ∧
       jsTruthy (jsObjGet (profilePairs profile none (jsSplitLines content))
          "aws_secret_access_key") = false)) :
    loadCredentialsFromContent path content profile
      = .error (profileNotFoundMsg path content profile) ∧
    ∀ p ∈ getAvailableProfiles content,
      p.data <:+: (profileNotFoundMsg path content profile).data := by
  have hnone : parseCredentials content profile = none := by
    rw [parseCredentials_eq_profilePairs]
    rcases h with hmiss | ⟨hid, hsec⟩
    · have hpp : profilePairs profile none (jsSplitLines content) = [] := by
        refine profilePairs_eq_nil profile _ none ?_ (by simp)
        intro l hl hheader hinner
        refine hmiss ?_
        unfold getAvailableProfiles
        refine List.mem_filterMap.2 ⟨l, hl, ?_⟩
        simp [hheader, hinner]
      rw [hpp]
      rfl
    · unfold credsOfPairs
      rw [hid]
      simp
  refine ⟨by simp [loadCredentialsFromContent, hnone], ?_⟩
  intro p hp
  show p.data <:+: (((("Profile '" ++ profile ++ "' not found in " ++ path ++ "\n") ++
    "Available profiles: ") ++ joinComma (getAvailableProfiles content))).data
  rw [String.data_append]
  exact (mem_joinComma_isInfix _ p hp).trans (List.suffix_append _ _).isInfix

/-- Credentials text whose profiles are `alpha` and `beta`, used by the
C6 witness. -/
def credsAlphaBeta : String := "[alpha]\naws_access_key_id=A\n[beta]\nx=1"

/-- C6, witness: resolving the absent profile `gamma` fails with the
profile-listing error. -/
theorem C6_witness :
    loadCredentialsFromContent "/root/.aws/credentials" credsAlphaBeta "gamma"
      = .error (profileNotFoundMsg "/root/.aws/credentials" credsAlphaBeta "gamma") :=
  (C6_missing_profile_error "/root/.aws/credentials" credsAlphaBeta "gamma"
    (Or.inl (by decide))).1

/-!  Claims C7 and C10: reply extraction. -/

/-- Structure of `splitOnChar`: the result is non-empty, its first part is
a prefix of the input, and every part is an infix of the input. -/
theorem splitOnChar_structure (sep : Char) :
    ∀ cs : List Char, ∃ h t, splitOnChar sep cs = h :: t ∧ h <+: cs ∧
      ∀ part ∈ t, part <:+: cs := by
  intro cs
  induction cs with
  | nil => exact ⟨[], [], rfl, List.nil_prefix, by simp⟩
  | cons c rest ih =>
    obtain ⟨h, t, heq, hpre, hinf⟩ := ih
    by_cases hc : c = sep
    · refine ⟨[], h :: t, ?_, List.nil_prefix, ?_⟩
      · simp [splitOnChar, hc, heq]
      · intro part hpart
        rcases List.mem_cons.1 hpart with rfl | hmem
        · exact List.infix_cons hpre.isInfix
        · exact List.infix_cons (hinf part hmem)
    · refine ⟨c :: h, t, ?_, ?_, ?_⟩
      · simp [splitOnChar, hc, heq]
      · exact List.cons_prefix_cons.2 ⟨rfl, hpre⟩
      · intro part hpart
        exact List.infix_cons (hinf part hpart)

/-- Every part of `splitOnChar` is an infix of the input. -/
theorem splitOnChar_infix (sep : Char) (cs : List Char) :
    ∀ part ∈ splitOnChar sep cs, part <:+: cs := by
  obtain ⟨h, t, heq, hpre, hinf⟩ := splitOnChar_structure sep cs
  rw [heq]
  intro part hpart
  rcases List.mem_cons.1 hpart with rfl | hmem
  · exact hpre.isInfix
  · exact hinf part hmem

/-- Every line of `jsSplitLines` is an infix of the string. -/
theorem jsSplitLines_isInfix (s : String) :
    ∀ l ∈ jsSplitLines s, l.data <:+: s.data := by
  intro l hl
  unfold jsSplitLines at hl
  obtain ⟨cs, hcs, hval⟩ := List.mem_map.1 hl
  rw [← hval]
  exact splitOnChar_infix '\n' s.data cs hcs

/-- Trimming only removes characters from the ends. -/
theorem trimRightChars_isPrefix (cs : List Char) : trimRightChars cs <+: cs := by
  have h : (List.dropWhile isJsWhitespace cs.reverse).reverse <+: cs.reverse.reverse :=
    List.reverse_prefix.2 (List.dropWhile_suffix isJsWhitespace)
  rwa [List.reverse_reverse] at h

/-- The trimmed string is an infix of the original. -/
theorem jsTrim_data_isInfix (s : String) : (jsTrim s).data <:+: s.data := by
  show trimRightChars (trimLeftChars s.data) <:+: s.data
  exact (trimRightChars_isPrefix _).isInfix.trans
    (List.dropWhile_suffix isJsWhitespace).isInfix

/-- A positive line scan exhibits a line whose trimmed text starts with
the reply token. -/
theorem lineScan_some_token :
    ∀ (ls : List String) (m : String), lineScan ls = some m →
      ∃ l ∈ ls, strStartsWith (jsTrim l) "/reply" = true := by
  intro ls
  induction ls with
  | nil => intro m hm; simp [lineScan] at hm
  | cons l rest ih =>
    intro m hm
    by_cases hs : strStartsWith (jsTrim l) "/reply" = true
    · exact ⟨l, List.mem_cons_self l rest, hs⟩
    · simp only [lineScan, hs, Bool.false_eq_true, if_false] at hm
      obtain ⟨l', hl', hs'⟩ := ih m hm
      exact ⟨l', List.mem_cons_of_mem _ hl', hs'⟩

/-- A positive regex scan requires the reply token to occur in the text. -/
theorem regexScan_some_isInfix :
    ∀ (cs cap : List Char), regexScan cs = some cap → replyToken <:+: cs := by
  intro cs
  induction cs with
  | nil => intro cap hm; simp [regexScan] at hm
  | cons c rest ih =>
    intro cap hm
    simp only [regexScan] at hm
    rcases htry : tryMatchAt (c :: rest) with _ | tcap
    · rw [htry] at hm
      exact List.infix_cons (ih cap hm)
    · have hpre : replyToken.isPrefixOf (c :: rest) = true := by
        by_contra hcon
        rw [Bool.not_eq_true] at hcon
        simp [tryMatchAt, hcon] at htry
      exact (List.isPrefixOf_iff_prefix.1 hpre).isInfix

/-- A line whose trimmed text starts with the code fence cannot start
with the reply token. -/
theorem fence_not_reply (t : String) (h : strStartsWith t "```" = true) :
    strStartsWith t "/reply" = false := by
  unfold strStartsWith at h ⊢
  rw [show ("```" : String).data = ['`', '`', '`'] from rfl] at h
  rw [show ("/reply" : String).data = ['/', 'r', 'e', 'p', 'l', 'y'] from rfl]
  cases td : t.data with
  | nil => rw [td] at h; simp [List.isPrefixOf] at h
  | cons c cs =>
    rw [td] at h
    simp only [List.isPrefixOf, Bool.and_eq_true, beq_iff_eq] at h
    obtain ⟨h1, -⟩ := h
    subst h1
    simp [List.isPrefixOf]

/-- Deleting every line that opens or closes a fence (trimmed text
starting with the delimiter) does not change the single-line scan. -/
theorem lineScan_filter_fence :
    ∀ ls : List String,
      lineScan ls
        = lineScan (ls.filter fun l => !(strStartsWith (jsTrim l) "```")) := by
  intro ls
  induction ls with
  | nil => rfl
  | cons l rest ih =>
    by_cases hf : strStartsWith (jsTrim l) "```" = true
    · have hns := fence_not_reply (jsTrim l) hf
      simp only [List.filter_cons, hf, Bool.not_true, Bool.false_eq_true, if_false]
      simp only [lineScan, hns, Bool.false_eq_true, if_false]
      exact ih
    · rw [Bool.not_eq_true] at hf
      simp only [List.filter_cons, hf, Bool.not_false, if_true]
      simp only [lineScan]
      split
      · split
        · rfl
        · exact ih
      · exact ih

/-- C10: the single-line scan of `extractReplyMessage` tracks no fence
state - removing every fence line leaves its result unchanged, so a
matching line inside a fenced block is treated exactly as if the fence
were absent - and whenever the scan finds a line, its value is the
extractor's result. -/
theorem C10_fence_oblivious_scan :
    (∀ ls : List String,
      lineScan ls
        = lineScan (ls.filter fun l => !(strStartsWith (jsTrim l) "```"))) ∧
    (∀ (comment m : String), lineScan (jsSplitLines comment) = some m →
      extractReplyMessage comment = some m) := by
  refine ⟨lineScan_filter_fence, ?_⟩
  intro comment m hm
  unfold extractReplyMessage
  rw [hm]

/-- C10, witness: the token on a line inside a fenced block is extracted
exactly as if the fence were absent. -/
theorem C10_witness :
    extractReplyMessage "```\n/reply inside\n```\nafter" = some "inside" :=
  C10_fence_oblivious_scan.2 "```\n/reply inside\n```\nafter" "inside" (by decide)

/-- `takeWhile` walks through an all-satisfying left part of an append. -/
theorem takeWhile_append_all (p : Char → Bool) :
    ∀ (t X : List Char), (∀ a ∈ t, p a = true) →
      (t ++ X).takeWhile p = t ++ X.takeWhile p := by
  intro t
  induction t with
  | nil => intro X _; rfl
  | cons a t' ih =>
    intro X hall
    have ha := hall a (List.mem_cons_self a t')
    simp only [List.cons_append, List.takeWhile_cons, ha, if_true]
    rw [ih X fun x hx => hall x (List.mem_cons_of_mem _ hx)]

/-- The head of a `dropWhile` result fails the predicate. -/
theorem dropWhile_head_false (p : Char → Bool) :
    ∀ (l : List Char) (c : Char) (cs : List Char),
      l.dropWhile p = c :: cs → p c = false := by
  intro l
  induction l with
  | nil => intro c cs h; simp at h
  | cons a rest ih =>
    intro c cs h
    by_cases hp : p a = true
    · rw [List.dropWhile_cons, if_pos hp] at h
      exact ih c cs h
    · rw [List.dropWhile_cons, if_neg hp] at h
      injection h with h1 h2
      cases hpa : p a with
      | true => exact absurd hpa hp
      | false => rw [← h1]; exact hpa

/-- `captureRest` of a backtick-free block followed by a newline and the
fence captures the block and the newline, stopping at the fence. -/
theorem captureRest_no_backtick :
    ∀ d : List Char, (∀ c ∈ d, c ≠ '`') →
      captureRest (d ++ '\n' :: fenceChars) = d ++ ['\n'] := by
  intro d
  induction d with
  | nil => intro _; rfl
  | cons c d' ih =>
    intro hnb
    have hc : c ≠ '`' := hnb c (List.mem_cons_self c d')
    have hpf : fenceChars.isPrefixOf (c :: (d' ++ '\n' :: fenceChars)) = false := by
      cases hcon : fenceChars.isPrefixOf (c :: (d' ++ '\n' :: fenceChars)) with
      | false => rfl
      | true =>
        exfalso
        rcases List.isPrefixOf_iff_prefix.1 hcon with ⟨tl, htl⟩
        rw [show fenceChars = '`' :: '`' :: '`' :: [] from rfl] at htl
        simp only [List.cons_append, List.cons.injEq] at htl
        exact hc htl.1.symm
    simp only [List.cons_append, List.append_eq]
    rw [captureRest, if_neg (by rw [hpf]; exact Bool.false_ne_true)]
    rw [ih fun x hx => hnb x (List.mem_cons_of_mem _ hx)]

/-- Trimming the captured block (the whitespace-stripped body followed by
the newline before the fence) gives exactly the trimmed body. -/
theorem jsTrim_capture (body : String) :
    jsTrim ⟨trimLeftChars body.data ++ ['\n']⟩ = jsTrim body := by
  have hnl : isJsWhitespace '\n' = true := rfl
  unfold jsTrim
  cases hd : trimLeftChars body.data with
  | nil => rfl
  | cons c d' =>
    have hc : isJsWhitespace c = false :=
      dropWhile_head_false isJsWhitespace body.data c d' hd
    have hleft : trimLeftChars ((c :: d') ++ ['\n']) = (c :: d') ++ ['\n'] := by
      unfold trimLeftChars
      rw [List.cons_append, List.dropWhile_cons,
        if_neg (by rw [hc]; exact Bool.false_ne_true)]
    have hright : trimRightChars ((c :: d') ++ ['\n']) = trimRightChars (c :: d') := by
      unfold trimRightChars
      rw [List.reverse_append, show (['\n'] : List Char).reverse = ['\n'] from rfl,
        show (['\n'] : List Char) ++ (c :: d').reverse = '\n' :: (c :: d').reverse from rfl,
        List.dropWhile_cons, if_pos hnl]
    rw [show (String.mk ((c :: d') ++ ['\n'])).data = (c :: d') ++ ['\n'] from rfl,
      hleft, hright]

/-- A position that does not start with the reply token cannot match. -/
theorem tryMatchAt_none_of_no_token (cs : List Char)
    (h : replyToken.isPrefixOf cs = false) : tryMatchAt cs = none := by
  simp [tryMatchAt, h]

/-- The scan moves one position right past a non-matching position. -/
theorem regexScan_cons_none (c : Char) (rest : List Char)
    (h : tryMatchAt (c :: rest) = none) :
    regexScan (c :: rest) = regexScan rest := by
  simp [regexScan, h]

/-- Dropping the six token characters. -/
theorem drop_six_reply (Z : List Char) :
    ('/' :: 'r' :: 'e' :: 'p' :: 'l' :: 'y' :: Z).drop 6 = Z := rfl

/-- Leftmost match of the multi-line regex on a fenced command block: the
capture is the whitespace-stripped body followed by the newline before
the closing fence. -/
theorem regexScan_block (body : String)
    (hnb : ∀ c ∈ body.data, c ≠ '`')
    (hne : trimLeftChars body.data ≠ []) :
    regexScan ('`' :: '`' :: '`' :: '\n' :: '/' :: 'r' :: 'e' :: 'p' :: 'l' :: 'y' :: '\n' ::
        (body.data ++ '\n' :: fenceChars))
      = some (trimLeftChars body.data ++ ['\n']) := by
  obtain ⟨c, d', hD⟩ : ∃ c d', trimLeftChars body.data = c :: d' := by
    cases hx : trimLeftChars body.data with
    | nil => exact absurd hx hne
    | cons a b => exact ⟨a, b, rfl⟩
  have hD' : List.dropWhile isJsWhitespace body.data = c :: d' := hD
  have hc : isJsWhitespace c = false := dropWhile_head_false _ body.data c d' hD
  have hmemT : ∀ a ∈ body.data.takeWhile isJsWhitespace, isJsWhitespace a = true :=
    fun a ha => List.mem_takeWhile_imp ha
  rw [regexScan_cons_none '`' ('`' :: '`' :: '\n' :: '/' :: 'r' :: 'e' :: 'p' :: 'l' :: 'y' :: '\n' ::
      (body.data ++ '\n' :: fenceChars)) (tryMatchAt_none_of_no_token _ rfl),
    regexScan_cons_none '`' ('`' :: '\n' :: '/' :: 'r' :: 'e' :: 'p' :: 'l' :: 'y' :: '\n' ::
      (body.data ++ '\n' :: fenceChars)) (tryMatchAt_none_of_no_token _ rfl),
    regexScan_cons_none '`' ('\n' :: '/' :: 'r' :: 'e' :: 'p' :: 'l' :: 'y' :: '\n' ::
      (body.data ++ '\n' :: fenceChars)) (tryMatchAt_none_of_no_token _ rfl),
    regexScan_cons_none '\n' ('/' :: 'r' :: 'e' :: 'p' :: 'l' :: 'y' :: '\n' ::
      (body.data ++ '\n' :: fenceChars)) (tryMatchAt_none_of_no_token _ rfl)]
  have hpre : replyToken.isPrefixOf
      ('/' :: 'r' :: 'e' :: 'p' :: 'l' :: 'y' :: '\n' :: (body.data ++ '\n' :: fenceChars))
      = true := by
    simp [show replyToken = ['/', 'r', 'e', 'p', 'l', 'y'] from rfl, List.isPrefixOf]
  have htw : ('\n' :: (body.data ++ '\n' :: fenceChars)).takeWhile isJsWhitespace
      = '\n' :: body.data.takeWhile isJsWhitespace := by
    rw [List.takeWhile_cons, if_pos (show isJsWhitespace '\n' = true from rfl)]
    congr 1
    conv_lhs => rw [← List.takeWhile_append_dropWhile isJsWhitespace body.data]
    rw [List.append_assoc, takeWhile_append_all isJsWhitespace _ _ hmemT, hD',
      List.cons_append, List.takeWhile_cons,
      if_neg (by rw [hc]; exact Bool.false_ne_true), List.append_nil]
  have hlen : ('\n' :: (body.data ++ '\n' :: fenceChars)).length
      = body.data.length + 5 := by
    rw [List.length_cons, List.length_append,
      show ('\n' :: fenceChars).length = 4 from rfl]
  have hlenTD : (body.data.takeWhile isJsWhitespace).length + (c :: d').length
      = body.data.length := by
    rw [← hD', ← List.length_append, List.takeWhile_append_dropWhile]
  have hTle : (body.data.takeWhile isJsWhitespace).length + 1 ≤ body.data.length := by
    rw [List.length_cons] at hlenTD
    omega
  have hmin : min (('\n' :: body.data.takeWhile isJsWhitespace).length)
      (('\n' :: (body.data ++ '\n' :: fenceChars)).length - 1)
      = (body.data.takeWhile isJsWhitespace).length + 1 := by
    rw [List.length_cons, hlen]
    omega
  have hdrop : ('\n' :: (body.data ++ '\n' :: fenceChars)).drop
      ((body.data.takeWhile isJsWhitespace).length + 1)
      = List.dropWhile isJsWhitespace body.data ++ '\n' :: fenceChars := by
    have h2 : body.data ++ '\n' :: fenceChars
        = body.data.takeWhile isJsWhitespace ++
          (List.dropWhile isJsWhitespace body.data ++ '\n' :: fenceChars) := by
      rw [← List.append_assoc, List.takeWhile_append_dropWhile]
    rw [List.drop_succ_cons, h2, List.drop_left]
  have hcapture : captureFence
      (List.dropWhile isJsWhitespace body.data ++ '\n' :: fenceChars)
      = trimLeftChars body.data ++ ['\n'] := by
    rw [hD', List.cons_append, captureFence,
      captureRest_no_backtick d' (fun x hx => hnb x
        ((List.dropWhile_suffix isJsWhitespace).subset
          (hD' ▸ List.mem_cons_of_mem c hx))),
      hD, List.cons_append]
  have htry : tryMatchAt
      ('/' :: 'r' :: 'e' :: 'p' :: 'l' :: 'y' :: '\n' :: (body.data ++ '\n' :: fenceChars))
      = some (trimLeftChars body.data ++ ['\n']) := by
    simp only [tryMatchAt, hpre, if_true, drop_six_reply, htw]
    rw [if_pos ?hcond]
    case hcond =>
      constructor
      · rw [List.length_cons]
        omega
      · rw [hlen]
        omega
    rw [List.length_cons] at hmin ⊢
    rw [hmin, hdrop, hcapture]
  simp only [regexScan, htry]

/-- C7: `"/reply hello"` extracts `"hello"`; a comment in which the
command token does not occur extracts nothing; a fenced multi-line
command block extracts the full interior text trimmed, as does the
end-of-input form; and the single-line strategy takes precedence - its
first match in document order is the extractor's result. -/
theorem C7_reply_extraction :
    extractReplyMessage "/reply hello" = some "hello" ∧
    (∀ comment : String, ¬ replyToken <:+: comment.data →
      extractReplyMessage comment = none) ∧
    (∀ body : String,
      lineScan (jsSplitLines ("```\n/reply\n" ++ body ++ "\n```")) = none →
      (∀ c ∈ body.data, c ≠ '`') →
      jsTrim body ≠ "" →
      extractReplyMessage ("```\n/reply\n" ++ body ++ "\n```") = some (jsTrim body)) ∧
    extractReplyMessage "/reply\nline one\nline two" = some "line one\nline two" ∧
    (∀ (comment m : String), lineScan (jsSplitLines comment) = some m →
      extractReplyMessage comment = some m) := by
  refine ⟨by decide, ?_, ?_, by decide, ?_⟩
  · intro comment hno
    have hls : lineScan (jsSplitLines comment) = none := by
      cases hls' : lineScan (jsSplitLines comment) with
      | none => rfl
      | some m =>
        obtain ⟨l, hl, hsw⟩ := lineScan_some_token _ m hls'
        exact absurd (((List.isPrefixOf_iff_prefix.1 hsw).isInfix).trans
          ((jsTrim_data_isInfix l).trans (jsSplitLines_isInfix comment l hl))) hno
    have hrs : regexScan comment.data = none := by
      cases hrs' : regexScan comment.data with
      | none => rfl
      | some cap => exact absurd (regexScan_some_isInfix comment.data cap hrs') hno
    simp only [extractReplyMessage, hls, hrs]
  · intro body hline hnb hne
    have hD : trimLeftChars body.data ≠ [] := by
      intro h0
      apply hne
      show String.mk (trimRightChars (trimLeftChars body.data)) = ""
      rw [h0]
      rfl
    have hdata : ("```\n/reply\n" ++ body ++ "\n```").data
        = '`' :: '`' :: '`' :: '\n' :: '/' :: 'r' :: 'e' :: 'p' :: 'l' :: 'y' :: '\n' ::
          (body.data ++ '\n' :: fenceChars) := by
      rw [String.data_append, String.data_append,
        show ("```\n/reply\n" : String).data
          = ['`', '`', '`', '\n', '/', 'r', 'e', 'p', 'l', 'y', '\n'] from rfl,
        show ("\n```" : String).data = '\n' :: fenceChars from rfl]
      simp only [List.cons_append, List.nil_append, List.append_assoc]
    simp only [extractReplyMessage, hline, hdata, regexScan_block body hnb hD]
    rw [jsTrim_capture]
  · intro comment m hm
    unfold extractReplyMessage
    rw [hm]

/-- C7, witness: a concrete fenced multi-line command block extracts its
interior, trimmed. -/
theorem C7_witness :
    extractReplyMessage ("```\n/reply\n" ++ "hello\nworld" ++ "\n```")
      = some (jsTrim "hello\nworld") :=
  C7_reply_extraction.2.2.1 "hello\nworld" (by decide) (by decide) (by decide)

end Spec2Proof
